import Mathlib

/-!
Verification of the droid-provider credential core.

Shallow embedding of the repository sources:
  src/src-tauri/src/credentials.rs      (data model)
  src/src-tauri/src/auth/encryption.rs  (crypto unit)
  src/src-tauri/src/provider.rs         (store operations, error classifier)
  src/src-tauri/src/token_refresh.rs    (refresh workflow, retry wrapper)
  src/src-tauri/src/auth/workos.rs      (token exchange success path)

Modelling conventions:
  - Rust `String` / `&str` values are Lean `String`s; where byte-level
    processing matters (the crypto unit) byte slices are `List Nat` with
    every element < 256, and tokens are `List Char`.
  - `HashMap<String, DroidCredentials>` is an association list
    `List (String × DroidCredentials)` whose order is the iteration order
    of the map; `get`/`get_mut` act on the first matching key.
  - Fallible Rust functions returning `anyhow::Result` become `Except E α`
    with an inductive `E` whose constructors correspond one-to-one to the
    distinct `bail!`/error sites of the source.
  - Randomness (`rand::random`, random IVs) and clocks (`Utc::now`) are
    explicit parameters.
-/

namespace DroidProvider

/-- Authentication type of a credential record (credentials.rs `AuthType`). -/
inductive AuthType where
  | OAuth
  | ApiKey
deriving DecidableEq, Repr

/-- Endpoint type selecting the upstream path (credentials.rs `EndpointType`). -/
inductive EndpointType where
  | Anthropic
  | OpenAI
  | Comm
deriving DecidableEq, Repr

/-- One API key entry of a credential (credentials.rs `ApiKeyEntry`).
Counters are `Nat` models of `u64`; overflow is immaterial to the claims. -/
structure ApiKeyEntry where
  id : String
  hash : String
  encrypted_key : String
  created_at : String
  last_used_at : Option String
  usage_count : Nat
  status : String
  error_message : Option String
deriving DecidableEq, Repr

/-- A stored credential record (credentials.rs `DroidCredentials`). -/
structure DroidCredentials where
  name : Option String
  auth_type : AuthType
  endpoint_type : EndpointType
  access_token : Option String
  refresh_token : Option String
  expires_at : Option String
  organization_id : Option String
  user_id : Option String
  owner_email : Option String
  owner_name : Option String
  token_type : String
  api_keys : List ApiKeyEntry
  last_refresh : Option String
  is_healthy : Bool
  usage_count : Nat
  error_count : Nat
  last_error : Option String
deriving DecidableEq, Repr

/-- Default record, mirroring `impl Default for DroidCredentials`. -/
def DroidCredentials.default : DroidCredentials where
  name := none
  auth_type := .OAuth
  endpoint_type := .Anthropic
  access_token := none
  refresh_token := none
  expires_at := none
  organization_id := none
  user_id := none
  owner_email := none
  owner_name := none
  token_type := "Bearer"
  api_keys := []
  last_refresh := none
  is_healthy := true
  usage_count := 0
  error_count := 0
  last_error := none

/-- The in-memory credential store: the `HashMap<String, DroidCredentials>`
behind `CREDENTIALS` (provider.rs), listed in its iteration order. -/
abbrev Store := List (String × DroidCredentials)

/-- First-match key lookup, the model of `HashMap::get`. -/
def Store.lookup (store : Store) (id : String) : Option DroidCredentials :=
  (store.find? (fun p => p.1 = id)).map (·.2)

/-- String to byte-list conversion: code points taken as bytes. The source
uses UTF-8 bytes (`as_bytes`); on the ASCII strings the claims evaluate the
two agree. -/
def strToBytes (s : String) : List Nat :=
  s.data.map Char.toNat

/-- Models the external `sha2` crate SHA-256 digest: a deterministic
function from a byte list to a 32-byte digest. The claims use only
determinism, output length 32 and byte-ranged output, never concrete
digest values, so the compression itself is a simple keyed mix rather
than the FIPS 180-4 rounds. -/
def sha256Model (input : List Nat) : List Nat :=
  let seed := input.foldl (fun a b => (a * 131 + b + 1) % 4294967296) 2166136261
  (List.range 32).map (fun i => (seed / 2 ^ (i % 4 * 8) + i * 97) % 256)

/-- Fixed application salt (encryption.rs `ENCRYPTION_SALT`). -/
def saltBytes : List Nat :=
  strToBytes "droid-account-salt"

/-- Key derivation (encryption.rs `derive_key`): SHA-256 of the password
concatenated with the fixed salt, yielding a 32-byte key. -/
def derive_key (password : List Nat) : List Nat :=
  sha256Model (password ++ saltBytes)

/-- Keystream mask of the modelled block cipher, derived from the key. -/
def cbMask (key : List Nat) : List Nat :=
  (sha256Model key).take 16

/-- Models the external `aes` crate AES-256 block encryption: an invertible
keyed permutation of 16-byte blocks. The claims use only that decryption
inverts encryption on 16-byte blocks and that byte-ranged blocks map to
byte-ranged blocks, so the permutation is a key-derived XOR mask rather
than the AES round structure. -/
def aesBlockEnc (key block : List Nat) : List Nat :=
  List.zipWith Nat.xor block (cbMask key)

/-- Models the external `aes` crate AES-256 block decryption, the inverse
of `aesBlockEnc`. -/
def aesBlockDec (key block : List Nat) : List Nat :=
  List.zipWith Nat.xor block (cbMask key)

/-- PKCS#7 padding to a multiple of the 16-byte block size, as performed by
`encrypt_padded_mut::<Pkcs7>` of the external `block-padding` crate. -/
def pkcs7Pad (l : List Nat) : List Nat :=
  let p := 16 - l.length % 16
  l ++ List.replicate p p

/-- PKCS#7 unpadding, as performed by `decrypt_padded_mut::<Pkcs7>`: the
last byte `n` must satisfy `1 ≤ n ≤ 16` and the last `n` bytes must all
equal `n`; those bytes are stripped. -/
def pkcs7Unpad (l : List Nat) : Option (List Nat) :=
  match l.getLast? with
  | none => none
  | some n =>
    if n = 0 || 16 < n || l.length < n then none
    else if (l.drop (l.length - n)).all (fun x => x = n) then
      some (l.take (l.length - n))
    else none

/-- Split a byte list into consecutive 16-byte blocks (the view the `cbc`
crate takes of the padded buffer). -/
def toBlocks : List Nat → List (List Nat)
  | [] => []
  | b :: rest => (b :: rest.take 15) :: toBlocks (rest.drop 15)
termination_by l => l.length
decreasing_by
  simp only [List.length_drop, List.length_cons]
  omega

/-- CBC-mode encryption over blocks (external `cbc` crate):
`C_i = E(P_i ⊕ C_(i-1))` with `C_0` the IV. -/
def cbcEncBlocks (key : List Nat) (prev : List Nat) : List (List Nat) → List (List Nat)
  | [] => []
  | b :: bs =>
    let c := aesBlockEnc key (List.zipWith Nat.xor b prev)
    c :: cbcEncBlocks key c bs

/-- CBC-mode decryption over blocks: `P_i = D(C_i) ⊕ C_(i-1)`. -/
def cbcDecBlocks (key : List Nat) (prev : List Nat) : List (List Nat) → List (List Nat)
  | [] => []
  | c :: cs => List.zipWith Nat.xor (aesBlockDec key c) prev :: cbcDecBlocks key c cs

/-- Lowercase hex digit for a value below 16 (external `hex` crate encode). -/
def hexDigitChar (n : Nat) : Char :=
  "0123456789abcdef".data.getD n '0'

/-- Hex digit value of a character, accepting both cases as the external
`hex` crate decoder does. -/
def hexDigitVal (c : Char) : Option Nat :=
  if '0' ≤ c ∧ c ≤ '9' then some (c.toNat - '0'.toNat)
  else if 'a' ≤ c ∧ c ≤ 'f' then some (c.toNat - 'a'.toNat + 10)
  else if 'A' ≤ c ∧ c ≤ 'F' then some (c.toNat - 'A'.toNat + 10)
  else none

/-- Hex encoding of a byte list (external `hex::encode`). -/
def hexEncodeBytes : List Nat → List Char
  | [] => []
  | b :: bs => hexDigitChar (b / 16) :: hexDigitChar (b % 16) :: hexEncodeBytes bs

/-- Hex decoding of a character list (external `hex::decode`): fails on odd
length or on any non-hex character. -/
def hexDecodeChars : List Char → Option (List Nat)
  | [] => some []
  | [_] => none
  | c1 :: c2 :: rest =>
    match hexDigitVal c1, hexDigitVal c2, hexDecodeChars rest with
    | some v1, some v2, some bs => some ((v1 * 16 + v2) :: bs)
    | _, _, _ => none

/-- Split on every colon, as Rust `str::split(':').collect::<Vec<_>>()`
does in decrypt_sensitive_data; always returns at least one part. -/
def splitOnColon : List Char → List (List Char)
  | [] => [[]]
  | c :: rest =>
    if c = ':' then [] :: splitOnColon rest
    else
      match splitOnColon rest with
      | [] => [[c]]
      | p :: ps => (c :: p) :: ps

/-- Continuation byte test of UTF-8 validation. -/
def utf8Cont (b : Nat) : Bool :=
  128 ≤ b && b ≤ 191

/-- UTF-8 validity of a byte list, following the validation performed by
Rust `String::from_utf8` (RFC 3629 table, surrogate and overlong forms
rejected). -/
def validUtf8 : List Nat → Bool
  | [] => true
  | b :: rest =>
    if b < 128 then validUtf8 rest
    else if 194 ≤ b && b ≤ 223 then
      match rest with
      | b2 :: r => utf8Cont b2 && validUtf8 r
      | [] => false
    else if b = 224 then
      match rest with
      | b2 :: b3 :: r => (160 ≤ b2 && b2 ≤ 191) && utf8Cont b3 && validUtf8 r
      | _ => false
    else if (225 ≤ b && b ≤ 236) || b = 238 || b = 239 then
      match rest with
      | b2 :: b3 :: r => utf8Cont b2 && utf8Cont b3 && validUtf8 r
      | _ => false
    else if b = 237 then
      match rest with
      | b2 :: b3 :: r => (128 ≤ b2 && b2 ≤ 159) && utf8Cont b3 && validUtf8 r
      | _ => false
    else if b = 240 then
      match rest with
      | b2 :: b3 :: b4 :: r =>
        (144 ≤ b2 && b2 ≤ 191) && utf8Cont b3 && utf8Cont b4 && validUtf8 r
      | _ => false
    else if 241 ≤ b && b ≤ 243 then
      match rest with
      | b2 :: b3 :: b4 :: r => utf8Cont b2 && utf8Cont b3 && utf8Cont b4 && validUtf8 r
      | _ => false
    else if b = 244 then
      match rest with
      | b2 :: b3 :: b4 :: r =>
        (128 ≤ b2 && b2 ≤ 143) && utf8Cont b3 && utf8Cont b4 && validUtf8 r
      | _ => false
    else false

/-- Error kinds of the crypto unit, one per distinct error site of
encryption.rs `decrypt_sensitive_data`. -/
inductive CryptoError where
  | invalidFormat
  | ivDecodeFailed
  | ciphertextDecodeFailed
  | invalidIvLength
  | decryptFailed
  | utf8DecodeFailed
deriving DecidableEq, Repr

/-- A crypto error is a malformed-token kind (as opposed to a
decryption-failure kind). -/
def CryptoError.isMalformed : CryptoError → Bool
  | .decryptFailed => false
  | .utf8DecodeFailed => false
  | _ => true

/-- Encryption (encryption.rs `encrypt_sensitive_data`). The random IV is an
explicit parameter; the serialized token is `iv_hex ++ ":" ++ ciphertext_hex`
as a character list. The source returns `Result` but its only error site
(`encrypt_padded_mut` on an undersized buffer) is unreachable because the
buffer is allocated with 16 spare bytes, so the model is total. -/
def encrypt_sensitive_data (plaintext : List Nat) (iv : List Nat)
    (encryption_key : List Nat) : List Char :=
  if plaintext = [] then []
  else
    let key := derive_key encryption_key
    let padded := pkcs7Pad plaintext
    let ct := (cbcEncBlocks key iv (toBlocks padded)).flatten
    hexEncodeBytes iv ++ ':' :: hexEncodeBytes ct

/-- Decryption (encryption.rs `decrypt_sensitive_data`), with the source's
check order: empty fast path, colon split arity, IV hex decode, ciphertext
hex decode, IV length, CBC decrypt with PKCS#7 unpad, UTF-8 validation. -/
def decrypt_sensitive_data (encrypted_text : List Char)
    (encryption_key : List Nat) : Except CryptoError (List Nat) :=
  if encrypted_text = [] then .ok []
  else
    match splitOnColon encrypted_text with
    | [p1, p2] =>
      match hexDecodeChars p1 with
      | none => .error .ivDecodeFailed
      | some iv =>
        match hexDecodeChars p2 with
        | none => .error .ciphertextDecodeFailed
        | some ct =>
          if iv.length ≠ 16 then .error .invalidIvLength
          else
            let key := derive_key encryption_key
            if ct.length % 16 ≠ 0 then .error .decryptFailed
            else
              match pkcs7Unpad ((cbcDecBlocks key iv (toBlocks ct)).flatten) with
              | none => .error .decryptFailed
              | some pt =>
                if validUtf8 pt then .ok pt else .error .utf8DecodeFailed
    | _ => .error .invalidFormat

/-- Malformed-token predicate of claim C9: colon split arity not two, a
non-hex part, or a decoded IV not 16 bytes long. -/
def malformedToken (token : List Char) : Bool :=
  match splitOnColon token with
  | [p1, p2] =>
    match hexDecodeChars p1 with
    | none => true
    | some iv =>
      match hexDecodeChars p2 with
      | none => true
      | some _ => iv.length ≠ 16
  | _ => true

/-- API key fingerprint (encryption.rs `hash_api_key`): hex-encoded SHA-256
digest of the key. -/
def hash_api_key (api_key : String) : String :=
  ⟨hexEncodeBytes (sha256Model (strToBytes api_key))⟩

/-- Structured provider error (provider.rs `ProviderError`). -/
structure ProviderError where
  error_type : String
  message : String
  status_code : Option Nat
  retryable : Bool
  cooldown_seconds : Option Nat
deriving DecidableEq, Repr

/-- Error classifier (provider.rs `parse_error`): maps an upstream HTTP
status and response body to an optional `ProviderError`. -/
def parse_error (status : Nat) (body : String) : Option ProviderError :=
  if status = 401 then
    some { error_type := "authentication"
           message := "Token 已过期或无效"
           status_code := some status
           retryable := true
           cooldown_seconds := some 0 }
  else if status = 403 then
    some { error_type := "authorization"
           message := "权限不足"
           status_code := some status
           retryable := false
           cooldown_seconds := none }
  else if status = 429 then
    some { error_type := "rate_limit"
           message := "请求过于频繁"
           status_code := some status
           retryable := true
           cooldown_seconds := some 60 }
  else if 500 ≤ status ∧ status ≤ 599 then
    some { error_type := "server_error"
           message := "服务器错误: " ++ body
           status_code := some status
           retryable := true
           cooldown_seconds := some 10 }
  else
    none

/-- JSON values, the model of `serde_json::Value`. Numbers are `Int`
models of the integral values the claims evaluate; floats are unused. -/
inductive Json where
  | null
  | bool (b : Bool)
  | num (n : Int)
  | str (s : String)
  | arr (elems : List Json)
  | obj (fields : List (String × Json))

/-- Object field access, the model of `serde_json::Value::get`:
`None` on every non-object value. -/
def Json.get : Json → String → Option Json
  | .obj fields, key => (fields.find? (fun p => p.1 = key)).map (·.2)
  | _, _ => none

/-- Model of `serde_json::Value::as_str`. -/
def Json.as_str : Json → Option String
  | .str s => some s
  | _ => none

/-- Model of `serde_json::Value::as_bool`. -/
def Json.as_bool : Json → Option Bool
  | .bool b => some b
  | _ => none

/-- Model of `serde_json::Value::as_array`. -/
def Json.as_array : Json → Option (List Json)
  | .arr elems => some elems
  | _ => none

/-- The `mark_unhealthy` test of release_credential:
`error.get("mark_unhealthy").and_then(|v| v.as_bool()).unwrap_or(false)`. -/
def markUnhealthyFlag (error : Json) : Bool :=
  ((error.get "mark_unhealthy").bind Json.as_bool).getD false

/-- Per-record mutation of provider.rs `release_credential` once the record
was found under the write lock. -/
def applyRelease (credential : DroidCredentials) (result : Json) : DroidCredentials :=
  let c := { credential with usage_count := credential.usage_count + 1 }
  match result.get "error" with
  | some error =>
    let c := { c with
      error_count := c.error_count + 1
      last_error := (error.get "message").bind Json.as_str }
    if markUnhealthyFlag error then { c with is_healthy := false } else c
  | none => { c with is_healthy := true, last_error := none }

/-- Update the first entry with the given key, leaving the store unchanged
when the key is absent: the model of `HashMap::get_mut` plus in-place
mutation. -/
def Store.updateFirst (store : Store) (id : String)
    (f : DroidCredentials → DroidCredentials) : Store :=
  match store with
  | [] => []
  | (k, v) :: rest =>
    if k = id then (k, f v) :: rest else (k, v) :: Store.updateFirst rest id f

/-- Credential release (provider.rs `release_credential`): always returns
`Ok(())`; mutates the record with the given id when present. -/
def release_credential (credential_id : String) (result : Json)
    (store : Store) : Except String Unit × Store :=
  (.ok (), store.updateFirst credential_id (fun c => applyRelease c result))

/-- Character-level prefix test, the model of Rust `str::starts_with`
(stated over the code-point list so it evaluates by reduction). -/
def strStartsWith (s pre : String) : Bool :=
  pre.data.isPrefixOf s.data

/-- Model support check (provider.rs `supports_model`). -/
def supports_model (model : String) : Bool :=
  strStartsWith model "claude-" || strStartsWith model "gpt-"

/-- Base URL of the upstream API (provider.rs `FACTORY_API_BASE_URL`). -/
def FACTORY_API_BASE_URL : String := "https://api.factory.ai/api/llm"

/-- Endpoint path selection (provider.rs `get_endpoint_path`). -/
def get_endpoint_path (endpoint_type : EndpointType) : String :=
  match endpoint_type with
  | .Anthropic => "/a/v1/messages"
  | .OpenAI => "/o/v1/responses"
  | .Comm => "/o/v1/chat/completions"

/-- Display label of an auth type (credentials.rs `Display for AuthType`). -/
def auth_type_label : AuthType → String
  | .OAuth => "oauth"
  | .ApiKey => "api_key"

/-- The credential bundle returned by acquisition (credentials.rs
`AcquiredCredential`). Header and metadata maps are ordered lists; the
source inserts distinct keys into fresh `HashMap`s. -/
structure AcquiredCredential where
  id : String
  name : Option String
  auth_type : String
  base_url : Option String
  headers : List (String × String)
  metadata : List (String × Json)

/-- Error sites of provider.rs `acquire_credential`, one per `bail!` or
propagated failure. -/
inductive AcquireError where
  | unsupportedModel
  | noHealthyCredential
  | noAccessToken
  | noActiveKey
  | decryptError (e : CryptoError)
deriving DecidableEq, Repr

/-- First healthy record in store iteration order: the selection
`creds.iter().filter(|(_, c)| c.is_healthy)` followed by `.first()`. -/
def firstHealthy (store : Store) : Option (String × DroidCredentials) :=
  store.find? (fun p => p.2.is_healthy)

/-- Headers inserted before the per-auth-type Authorization header. -/
def baseHeaders : List (String × String) :=
  [("Content-Type", "application/json"),
   ("User-Agent", "factory-cli/0.32.1"),
   ("x-factory-client", "cli")]

/-- Decrypted plaintext bytes rendered as a string, one character per byte
(ASCII-faithful rendering of the UTF-8 validated plaintext). -/
def asciiString (l : List Nat) : String :=
  ⟨l.map Char.ofNat⟩

/-- Credential acquisition (provider.rs `acquire_credential`). The random
draw of `rand::random::<usize>()` is the explicit `rand` parameter and the
process encryption key is `encryptionKey`; the function is read-only on the
store (it runs under `CREDENTIALS.read()`), so the returned store is the
input store at every exit. -/
def acquire_credential (model : String) (store : Store) (rand : Nat)
    (encryptionKey : List Nat) : Except AcquireError AcquiredCredential × Store :=
  if ¬ supports_model model then (.error .unsupportedModel, store)
  else
    match store.filter (fun p => p.2.is_healthy) with
    | [] => (.error .noHealthyCredential, store)
    | (id, credential) :: _ =>
      let base_url := FACTORY_API_BASE_URL ++ get_endpoint_path credential.endpoint_type
      match credential.auth_type with
      | .OAuth =>
        match credential.access_token with
        | none => (.error .noAccessToken, store)
        | some token =>
          (.ok { id := id
                 name := credential.name
                 auth_type := auth_type_label credential.auth_type
                 base_url := some base_url
                 headers := baseHeaders ++ [("Authorization", "Bearer " ++ token)]
                 metadata := [] }, store)
      | .ApiKey =>
        match credential.api_keys.filter (fun k => k.status = "active") with
        | [] => (.error .noActiveKey, store)
        | k0 :: krest =>
          let active := k0 :: krest
          let selected := active.getD (rand % active.length) k0
          match decrypt_sensitive_data selected.encrypted_key.data encryptionKey with
          | .error e => (.error (.decryptError e), store)
          | .ok keyBytes =>
            (.ok { id := id
                   name := credential.name
                   auth_type := auth_type_label credential.auth_type
                   base_url := some base_url
                   headers := baseHeaders ++
                     [("Authorization", "Bearer " ++ asciiString keyBytes)]
                   metadata := [] }, store)

/-- Error sites of provider.rs `create_credential`. `deserializeFailed`
covers the `serde_json::from_value` propagation. -/
inductive CreateError where
  | unsupportedAuthType
  | deserializeFailed
  | oauthMissingTokens
  | apiKeyNoKeys
deriving DecidableEq, Repr

/-- Field lookup in a JSON object field list. -/
def jfield (fields : List (String × Json)) (name : String) : Option Json :=
  (fields.find? (fun p => p.1 = name)).map (·.2)

/-- Serde deserialization of an `Option<String>` field: absent or null is
`None`, a string is `Some`, any other value is a type error. -/
def jOptString (fields : List (String × Json)) (name : String) :
    Except Unit (Option String) :=
  match jfield fields name with
  | none => .ok none
  | some .null => .ok none
  | some (.str s) => .ok (some s)
  | some _ => .error ()

/-- Serde deserialization of a required `String` field. -/
def jStringReq (fields : List (String × Json)) (name : String) :
    Except Unit String :=
  match jfield fields name with
  | some (.str s) => .ok s
  | _ => .error ()

/-- Serde deserialization of a `String` field with a `#[serde(default)]`
value. -/
def jStringD (fields : List (String × Json)) (name : String) (dflt : String) :
    Except Unit String :=
  match jfield fields name with
  | none => .ok dflt
  | some (.str s) => .ok s
  | some _ => .error ()

/-- Serde deserialization of a defaulted `u64` field. -/
def jNatD (fields : List (String × Json)) (name : String) : Except Unit Nat :=
  match jfield fields name with
  | none => .ok 0
  | some (.num n) => if n < 0 then .error () else .ok n.toNat
  | some _ => .error ()

/-- Serde deserialization of a defaulted `bool` field. -/
def jBoolD (fields : List (String × Json)) (name : String) (dflt : Bool) :
    Except Unit Bool :=
  match jfield fields name with
  | none => .ok dflt
  | some (.bool b) => .ok b
  | some _ => .error ()

/-- Serde deserialization of the defaulted snake-case `AuthType` field. -/
def jAuthTypeD (fields : List (String × Json)) : Except Unit AuthType :=
  match jfield fields "auth_type" with
  | none => .ok .OAuth
  | some (.str "oauth") => .ok .OAuth
  | some (.str "api_key") => .ok .ApiKey
  | some _ => .error ()

/-- Serde deserialization of the defaulted snake-case `EndpointType`
field. -/
def jEndpointTypeD (fields : List (String × Json)) : Except Unit EndpointType :=
  match jfield fields "endpoint_type" with
  | none => .ok .Anthropic
  | some (.str "anthropic") => .ok .Anthropic
  | some (.str "openai") => .ok .OpenAI
  | some (.str "comm") => .ok .Comm
  | some _ => .error ()

/-- Serde deserialization of an `ApiKeyEntry` (derived `Deserialize`):
`id`, `hash`, `encrypted_key`, `created_at` are required strings, the
remaining fields carry `#[serde(default)]`. Non-objects are type errors. -/
def fromJsonApiKeyEntry (j : Json) : Except Unit ApiKeyEntry :=
  match j with
  | .obj fields => do
    let id ← jStringReq fields "id"
    let hash ← jStringReq fields "hash"
    let encrypted_key ← jStringReq fields "encrypted_key"
    let created_at ← jStringReq fields "created_at"
    let last_used_at ← jOptString fields "last_used_at"
    let usage_count ← jNatD fields "usage_count"
    let status ← jStringD fields "status" "active"
    let error_message ← jOptString fields "error_message"
    .ok { id := id, hash := hash, encrypted_key := encrypted_key
          created_at := created_at, last_used_at := last_used_at
          usage_count := usage_count, status := status
          error_message := error_message }
  | _ => .error ()

/-- Serde deserialization of `DroidCredentials` (derived `Deserialize`),
field by field per the serde attributes of credentials.rs: `Option` fields
accept absent/null, defaulted fields fall back on absence, `api_keys`
must be a list of `ApiKeyEntry` objects when present, and unknown fields
are ignored. The serde path that fills a struct positionally from a JSON
sequence is not modelled; every config the claims evaluate is an object. -/
def fromJsonDroidCredentials (j : Json) : Except Unit DroidCredentials :=
  match j with
  | .obj fields => do
    let name ← jOptString fields "name"
    let authTy ← jAuthTypeD fields
    let endpointTy ← jEndpointTypeD fields
    let access_token ← jOptString fields "access_token"
    let refresh_token ← jOptString fields "refresh_token"
    let expires_at ← jOptString fields "expires_at"
    let organization_id ← jOptString fields "organization_id"
    let user_id ← jOptString fields "user_id"
    let owner_email ← jOptString fields "owner_email"
    let owner_name ← jOptString fields "owner_name"
    let token_type ← jStringD fields "token_type" "Bearer"
    let api_keys ← (match jfield fields "api_keys" with
      | none => .ok []
      | some (.arr elems) => elems.mapM fromJsonApiKeyEntry
      | some _ => .error ())
    let last_refresh ← jOptString fields "last_refresh"
    let is_healthy ← jBoolD fields "is_healthy" true
    let usage_count ← jNatD fields "usage_count"
    let error_count ← jNatD fields "error_count"
    let last_error ← jOptString fields "last_error"
    .ok { name := name, auth_type := authTy, endpoint_type := endpointTy
          access_token := access_token, refresh_token := refresh_token
          expires_at := expires_at, organization_id := organization_id
          user_id := user_id, owner_email := owner_email
          owner_name := owner_name, token_type := token_type
          api_keys := api_keys, last_refresh := last_refresh
          is_healthy := is_healthy, usage_count := usage_count
          error_count := error_count, last_error := last_error }
  | _ => .error ()

/-- The API-key encryption loop of create_credential: for each JSON string
in the supplied array, a fresh entry with the fingerprint hash, the
encrypted key and status active; non-string elements are skipped. Fresh
entry ids and random IVs are supplied per index. -/
def buildApiKeyEntries (keys : List Json) (now : String)
    (encryptionKey : List Nat) (keyIds : Nat → String)
    (ivs : Nat → List Nat) : List ApiKeyEntry :=
  keys.enum.filterMap (fun p =>
    match p.2 with
    | .str s =>
      some { id := keyIds p.1
             hash := hash_api_key s
             encrypted_key := ⟨encrypt_sensitive_data (strToBytes s) (ivs p.1) encryptionKey⟩
             created_at := now
             last_used_at := none
             usage_count := 0
             status := "active"
             error_message := none }
    | _ => none)

/-- Credential creation (provider.rs `create_credential`). The fresh uuid,
the creation timestamp, the per-key fresh ids and the per-key random IVs
are explicit parameters; on success the new id and the extended store are
returned, on failure the store is untouched. -/
def create_credential (auth_type : String) (config : Json) (store : Store)
    (freshId : String) (now : String) (encryptionKey : List Nat)
    (keyIds : Nat → String) (ivs : Nat → List Nat) :
    Except CreateError (String × Store) :=
  match (match auth_type with
         | "oauth" => some AuthType.OAuth
         | "api_key" => some AuthType.ApiKey
         | _ => none) with
  | none => .error .unsupportedAuthType
  | some auth_type_enum =>
    match fromJsonDroidCredentials config with
    | .error _ => .error .deserializeFailed
    | .ok droid_config =>
      let dc1 := { droid_config with auth_type := auth_type_enum }
      let dc2 :=
        if auth_type_enum = .ApiKey then
          match (config.get "api_keys").bind Json.as_array with
          | some keys =>
            { dc1 with api_keys := buildApiKeyEntries keys now encryptionKey keyIds ivs }
          | none => dc1
        else dc1
      match auth_type_enum with
      | .OAuth =>
        if dc2.refresh_token = none ∧ dc2.access_token = none then
          .error .oauthMissingTokens
        else .ok (freshId, (freshId, dc2) :: store)
      | .ApiKey =>
        if dc2.api_keys = [] then .error .apiKeyNoKeys
        else .ok (freshId, (freshId, dc2) :: store)

/-- Digit test for the RFC 3339 parser model. -/
def isDigitCh (c : Char) : Bool :=
  '0' ≤ c && c ≤ '9'

/-- Numeric value of a digit character. -/
def digitVal (c : Char) : Nat :=
  c.toNat - '0'.toNat

/-- Gregorian leap-year rule. -/
def isLeapYear (y : Nat) : Bool :=
  (y % 4 = 0 && !(y % 100 = 0)) || y % 400 = 0

/-- Days in a month of the proleptic Gregorian calendar. -/
def daysInMonth (y m : Nat) : Nat :=
  if m = 2 then (if isLeapYear y then 29 else 28)
  else if m = 4 || m = 6 || m = 9 || m = 11 then 30
  else 31

/-- Days in years `[0, y)` of the proleptic Gregorian calendar. -/
def daysBeforeYear (y : Nat) : Nat :=
  365 * y + (if y = 0 then 0 else (y - 1) / 4 - (y - 1) / 100 + (y - 1) / 400 + 1)

/-- Days in the months of year `y` strictly before month `m`. -/
def daysBeforeMonth (y m : Nat) : Nat :=
  ((List.range (m - 1)).map (fun i => daysInMonth y (i + 1))).sum

/-- Day number of a civil date relative to 1970-01-01. -/
def toEpochDay (y m d : Nat) : Int :=
  ((daysBeforeYear y + daysBeforeMonth y m + (d - 1) : Nat) : Int)
    - (daysBeforeYear 1970 : Int)

/-- Models the external chrono `DateTime::parse_from_rfc3339`, restricted
to the canonical `YYYY-MM-DDTHH:MM:SSZ` form with full range validation;
the result is the UTC timestamp in seconds since the epoch. Chrono also
accepts numeric offsets and fractional seconds, which no claim needs; the
unparseable inputs the claims evaluate are invalid in every RFC 3339
variant. -/
def parse_rfc3339 (s : String) : Option Int :=
  match s.data with
  | [y1, y2, y3, y4, h1, m1, m2, h2, d1, d2, tc, hh1, hh2, c1, mi1, mi2, c2, s1, s2, z] =>
    if [y1, y2, y3, y4, m1, m2, d1, d2, hh1, hh2, mi1, mi2, s1, s2].all isDigitCh
        && h1 == '-' && h2 == '-' && tc == 'T' && c1 == ':' && c2 == ':' && z == 'Z' then
      let y := digitVal y1 * 1000 + digitVal y2 * 100 + digitVal y3 * 10 + digitVal y4
      let mo := digitVal m1 * 10 + digitVal m2
      let d := digitVal d1 * 10 + digitVal d2
      let h := digitVal hh1 * 10 + digitVal hh2
      let mi := digitVal mi1 * 10 + digitVal mi2
      let sec := digitVal s1 * 10 + digitVal s2
      if 1 ≤ mo && mo ≤ 12 && 1 ≤ d && d ≤ daysInMonth y mo
          && h < 24 && mi < 60 && sec < 60 then
        some (toEpochDay y mo d * 86400 + ((h * 3600 + mi * 60 + sec : Nat) : Int))
      else none
    else none
  | _ => none

/-- Two-digit zero-padded decimal. -/
def pad2 (n : Nat) : List Char :=
  [Char.ofNat (48 + n / 10 % 10), Char.ofNat (48 + n % 10)]

/-- Four-digit zero-padded decimal. -/
def pad4 (n : Nat) : List Char :=
  [Char.ofNat (48 + n / 1000 % 10), Char.ofNat (48 + n / 100 % 10),
   Char.ofNat (48 + n / 10 % 10), Char.ofNat (48 + n % 10)]

/-- Civil date of a day number counted from 1970-01-01 (era-based
conversion of the proleptic Gregorian calendar). -/
def civilFromDays (z : Nat) : Nat × Nat × Nat :=
  let zs := z + 719468
  let era := zs / 146097
  let doe := zs % 146097
  let yoe := (doe - doe / 1460 + doe / 36524 - doe / 146097) / 365
  let y := yoe + era * 400
  let doy := doe - (365 * yoe + yoe / 4 - yoe / 100)
  let mp := (5 * doy + 2) / 153
  let d := doy - (153 * mp + 2) / 5 + 1
  let m := if mp < 10 then mp + 3 else mp - 9
  (if m ≤ 2 then y + 1 else y, m, d)

/-- Models chrono `DateTime<Utc>::to_rfc3339` on nonnegative epoch
seconds, the only instants the claims reach: `YYYY-MM-DDTHH:MM:SS+00:00`. -/
def to_rfc3339 (t : Int) : String :=
  let tn := t.toNat
  let days := tn / 86400
  let rem := tn % 86400
  let c := civilFromDays days
  ⟨pad4 c.1 ++ '-' :: pad2 c.2.1 ++ '-' :: pad2 c.2.2
    ++ 'T' :: pad2 (rem / 3600) ++ ':' :: pad2 (rem % 3600 / 60)
    ++ ':' :: pad2 (rem % 60) ++ "+00:00".data⟩

/-- WorkOS user payload (credentials.rs `WorkOSUser`). -/
structure WorkOSUser where
  id : Option String
  email : Option String
  first_name : Option String
  last_name : Option String
deriving DecidableEq, Repr

/-- Parsed token-exchange response body (credentials.rs
`WorkOSTokenResponse`); `expires_in` is seconds. -/
structure WorkOSTokenResponse where
  access_token : String
  refresh_token : Option String
  expires_at : Option String
  expires_in : Option Int
  token_type : Option String
  organization_id : Option String
  user : Option WorkOSUser
  authentication_method : Option String
deriving DecidableEq, Repr

/-- Refresh result of auth/workos.rs (`TokenRefreshResult` of that module);
the chrono `DateTime<Utc>` expiry is an epoch-seconds instant. -/
structure WorkosRefreshResult where
  access_token : String
  refresh_token : Option String
  expires_at : Option Int
  organization_id : Option String
  user_id : Option String
  owner_email : Option String
deriving DecidableEq, Repr

/-- Refresh result of token_refresh.rs (`TokenRefreshResult` of that
module). -/
structure TokenRefreshResult where
  access_token : String
  refresh_token : Option String
  expires_at : Option Int
  organization_id : Option String
deriving DecidableEq, Repr

/-- Expiry computation of auth/workos.rs `refresh_workos_token` lines
70-79: if the response carries `expires_at`, the result is its RFC 3339
parse (`.ok()` - an unparseable value yields `None` without falling back);
otherwise `now + expires_in` when present; otherwise `now` plus 8 hours. -/
def computeExpiresAt (resp : WorkOSTokenResponse) (now : Int) : Option Int :=
  match resp.expires_at with
  | some s => parse_rfc3339 s
  | none =>
    match resp.expires_in with
    | some n => some (now + n)
    | none => some (now + 8 * 3600)

/-- Success path of auth/workos.rs `refresh_workos_token` once the token
endpoint returned a parsed `WorkOSTokenResponse` (the network exchange is
external; its parsed body is the parameter). -/
def refresh_workos_token_success (resp : WorkOSTokenResponse) (now : Int) :
    WorkosRefreshResult :=
  { access_token := resp.access_token
    refresh_token := resp.refresh_token
    expires_at := computeExpiresAt resp now
    organization_id := resp.organization_id
    user_id := resp.user.bind (·.id)
    owner_email := resp.user.bind (·.email) }

/-- Record update of token_refresh.rs `refresh_oauth_token` lines 56-74:
overwrite the access token, overwrite the refresh token only when rotated,
store the expiry as an RFC 3339 string, stamp last_refresh, heal the
record, and overwrite identity fields only when supplied. -/
def apply_refresh_result (credential : DroidCredentials)
    (result : WorkosRefreshResult) (now : Int) : DroidCredentials :=
  let c := { credential with
    access_token := some result.access_token
    refresh_token := match result.refresh_token with
                     | some rt => some rt
                     | none => credential.refresh_token
    expires_at := result.expires_at.map to_rfc3339
    last_refresh := some (to_rfc3339 now)
    is_healthy := true
    last_error := none }
  let c := match result.organization_id with
           | some org => { c with organization_id := some org }
           | none => c
  let c := match result.user_id with
           | some uid => { c with user_id := some uid }
           | none => c
  match result.owner_email with
  | some em => { c with owner_email := some em }
  | none => c

/-- Successful OAuth refresh applied to a record: the composition of the
workos.rs success path and the token_refresh.rs record update. -/
def refresh_oauth_token_success (credential : DroidCredentials)
    (resp : WorkOSTokenResponse) (now : Int) : DroidCredentials :=
  apply_refresh_result credential (refresh_workos_token_success resp now) now

/-- Store lock and network events for the concurrency discipline. -/
inductive StoreEvent where
  | acquireWrite
  | releaseWrite
  | netRequest
deriving DecidableEq, Repr

/-- Event trace of provider.rs `refresh_token(credential_id)`, read off the
source: `CREDENTIALS.write().await` acquires the store write lock and the
guard `creds` lives to the end of the function, so it is released only at
exit; in between, for a stored OAuth record with a refresh token present,
`token_refresh::refresh_token` reaches `refresh_workos_token`
(auth/workos.rs), whose reqwest `send().await` is the network round trip.
For an unknown id, an ApiKey record, or a missing refresh token the inner
call bails before any network activity. -/
def refresh_token_trace (store : Store) (credential_id : String) :
    List StoreEvent :=
  [.acquireWrite]
    ++ (match store.lookup credential_id with
        | some credential =>
          match credential.auth_type with
          | .OAuth =>
            match credential.refresh_token with
            | some _ => [.netRequest]
            | none => []
          | .ApiKey => []
        | none => [])
    ++ [.releaseWrite]

/-- Whether a trace performs a network request while the write-lock depth
is positive. -/
def netUnderWriteLock : List StoreEvent → Nat → Bool
  | [], _ => false
  | .acquireWrite :: rest, depth => netUnderWriteLock rest (depth + 1)
  | .releaseWrite :: rest, depth => netUnderWriteLock rest (depth - 1)
  | .netRequest :: rest, depth => decide (0 < depth) || netUnderWriteLock rest depth

/-- Outcome of the retry wrapper: a success, a surfaced error, or the
panic of `last_error.unwrap()` on `None`. -/
inductive RetryOutcome where
  | ok (result : TokenRefreshResult)
  | err (e : String)
  | panicked
deriving DecidableEq, Repr

/-- The `for attempt in 0..max_retries` loop of token_refresh.rs
`refresh_token_with_retry`: `attemptResult` gives the outcome of
`refresh_token(credential)` at each attempt index (abstracting the evolving
record and the network); the second component collects the backoff sleeps
in milliseconds, `1000 * 2^attempt` after each failed attempt. -/
def refreshAttemptLoop (attemptResult : Nat → Except String TokenRefreshResult) :
    Nat → Nat → Option String → RetryOutcome × List Nat
  | _, 0, lastError =>
    (match lastError with
     | some e => (.err e, [])
     | none => (.panicked, []))
  | attempt, r + 1, _ =>
    match attemptResult attempt with
    | .ok result => (.ok result, [])
    | .error e =>
      let next := refreshAttemptLoop attemptResult (attempt + 1) r (some e)
      (next.1, (1000 * 2 ^ attempt) :: next.2)

/-- Retry wrapper (token_refresh.rs `refresh_token_with_retry`): starts at
attempt 0 with `last_error = None`. -/
def refresh_token_with_retry
    (attemptResult : Nat → Except String TokenRefreshResult)
    (max_retries : Nat) : RetryOutcome × List Nat :=
  refreshAttemptLoop attemptResult 0 max_retries none

/-- C6: parse_error classifies 401 as a retryable authentication error with
zero cooldown, 403 as a non-retryable authorization error, 429 as a
retryable rate-limit error with 60 seconds cooldown, every 5xx status as a
retryable server error with 10 seconds cooldown whose message contains the
body, and yields no classification for every other status. -/
theorem parse_error_classification :
    ∀ (status : Nat) (body : String),
      (status = 401 → ∃ e, parse_error status body = some e ∧
        e.error_type = "authentication" ∧ e.retryable = true ∧
        e.cooldown_seconds = some 0)
      ∧ (status = 403 → ∃ e, parse_error status body = some e ∧
        e.error_type = "authorization" ∧ e.retryable = false)
      ∧ (status = 429 → ∃ e, parse_error status body = some e ∧
        e.error_type = "rate_limit" ∧ e.retryable = true ∧
        e.cooldown_seconds = some 60)
      ∧ (500 ≤ status → status ≤ 599 → ∃ e h, parse_error status body = some e ∧
        e.error_type = "server_error" ∧ e.retryable = true ∧
        e.cooldown_seconds = some 10 ∧ e.message = h ++ body)
      ∧ (status ≠ 401 → status ≠ 403 → status ≠ 429 →
        ¬(500 ≤ status ∧ status ≤ 599) → parse_error status body = none) := by
  intro status body
  refine ⟨?_, ?_, ?_, ?_, ?_⟩
  · rintro rfl
    exact ⟨_, rfl, rfl, rfl, rfl⟩
  · rintro rfl
    exact ⟨_, rfl, rfl, rfl⟩
  · rintro rfl
    exact ⟨_, rfl, rfl, rfl, rfl⟩
  · intro h5 h6
    have h1 : ¬ status = 401 := by omega
    have h2 : ¬ status = 403 := by omega
    have h3 : ¬ status = 429 := by omega
    unfold parse_error
    rw [if_neg h1, if_neg h2, if_neg h3, if_pos ⟨h5, h6⟩]
    exact ⟨_, "服务器错误: ", rfl, rfl, rfl, rfl, rfl⟩
  · intro h1 h2 h3 h4
    unfold parse_error
    rw [if_neg h1, if_neg h2, if_neg h3, if_neg h4]

/-- Witness for C6 at the concrete status 503. -/
theorem parse_error_classification_witness :
    ∃ e h, parse_error 503 "overloaded" = some e ∧
      e.error_type = "server_error" ∧ e.retryable = true ∧
      e.cooldown_seconds = some 10 ∧ e.message = h ++ "overloaded" :=
  (parse_error_classification 503 "overloaded").2.2.2.1 (by decide) (by decide)

/-- C7 (refutation): with `max_attempts = 0` the retry wrapper never enters
the loop, `last_error` stays `None`, and `last_error.unwrap()` panics, for
every possible sequence of attempt outcomes - contradicting the claim that
the failure path never panics for any value of `max_attempts` including
zero. -/
theorem retry_zero_attempts_panics :
    ∀ (attemptResult : Nat → Except String TokenRefreshResult),
      refresh_token_with_retry attemptResult 0 = (.panicked, []) :=
  fun _ => rfl

/-- C10: acquisition is a pure read on the store - at every exit, success
or failure, the store (and hence every record and every ApiKeyEntry in it)
is returned unchanged. -/
theorem acquire_leaves_store_unchanged :
    ∀ (model : String) (store : Store) (rand : Nat) (key : List Nat),
      (acquire_credential model store rand key).2 = store
      ∧ ∀ id, ((acquire_credential model store rand key).2).lookup id =
          store.lookup id := by
  intro model store rand key
  have h : (acquire_credential model store rand key).2 = store := by
    unfold acquire_credential
    repeat' split
    all_goals dsimp only
    all_goals split <;> rfl
  exact ⟨h, fun id => by rw [h]⟩

/-- C1 (refutation): creating an api_key credential from a config that
supplies its keys as a list of plaintext strings fails - the serde
deserialization of the full config into DroidCredentials rejects the
string elements where Vec of ApiKeyEntry objects is expected, so creation
is rejected before the fingerprint/encrypt loop ever runs, no id is
allocated, and no record with active entries is stored. -/
theorem create_apikey_plaintext_config_rejected :
    create_credential "api_key"
      (Json.obj [("api_keys", Json.arr [Json.str "sk-test-key"])])
      [] "cred-1" "2026-01-01T00:00:00+00:00"
      (strToBytes "default-droid-encryption-key")
      (fun _ => "entry-1") (fun _ => List.replicate 16 0)
      = .error .deserializeFailed := by
  rfl

/-- C2 (refutation): for every stored OAuth credential with a refresh token
present, the refresh trace of provider.rs `refresh_token` performs the
WorkOS network round trip at a positive write-lock depth - the write
guard is held across the HTTP call, contradicting the claim that the lock
is released before the exchange and reacquired afterwards. -/
theorem refresh_holds_write_lock_across_network :
    ∀ (store : Store) (credential_id : String) (credential : DroidCredentials),
      store.lookup credential_id = some credential →
      credential.auth_type = .OAuth →
      credential.refresh_token.isSome = true →
      netUnderWriteLock (refresh_token_trace store credential_id) 0 = true := by
  intro store credential_id credential hl ha hr
  cases h : credential.refresh_token with
  | none => rw [h] at hr; simp at hr
  | some rt =>
    unfold refresh_token_trace
    rw [hl]
    simp [ha, h, netUnderWriteLock]

/-- Witness for C2 at a concrete one-record store. -/
theorem refresh_holds_write_lock_across_network_witness :
    netUnderWriteLock
      (refresh_token_trace
        [("cred-a", { DroidCredentials.default with refresh_token := some "rt-1" })]
        "cred-a") 0 = true :=
  refresh_holds_write_lock_across_network _ "cred-a"
    { DroidCredentials.default with refresh_token := some "rt-1" }
    (by decide) rfl rfl

/-- Updating an absent key leaves the store unchanged. -/
theorem updateFirst_of_lookup_none (store : Store) (id : String)
    (f : DroidCredentials → DroidCredentials) (h : store.lookup id = none) :
    store.updateFirst id f = store := by
  induction store with
  | nil => rfl
  | cons hd tl ih =>
    obtain ⟨k, v⟩ := hd
    by_cases hk : k = id
    · simp [Store.lookup, List.find?_cons_of_pos, hk] at h
    · simp only [Store.lookup, List.find?] at h ih
      rw [show (decide (k = id)) = false by simp [hk]] at h
      simp only [Store.updateFirst, if_neg hk]
      rw [ih h]

/-- Updating a present key rewrites exactly the first record with that key,
as seen through first-match lookup. -/
theorem lookup_updateFirst_self (store : Store) (id : String)
    (f : DroidCredentials → DroidCredentials) (rec : DroidCredentials)
    (h : store.lookup id = some rec) :
    (store.updateFirst id f).lookup id = some (f rec) := by
  induction store with
  | nil => simp [Store.lookup] at h
  | cons hd tl ih =>
    obtain ⟨k, v⟩ := hd
    by_cases hk : k = id
    · simp only [Store.lookup, List.find?_cons_of_pos, decide_eq_true_eq, hk,
        Option.map_some] at h
      subst hk
      cases h
      simp [Store.updateFirst, Store.lookup, List.find?_cons_of_pos]
    · simp only [Store.lookup, List.find?] at h ih
      rw [show (decide (k = id)) = false by simp [hk]] at h
      simp only [Store.updateFirst, if_neg hk, Store.lookup, List.find?]
      rw [show (decide (k = id)) = false by simp [hk]]
      exact ih h

/-- C4: release always answers Ok; for a known id it increments
usage_count, on an error outcome increments error_count, stores the error
message as last_error and flips is_healthy to false exactly when the error
carries mark_unhealthy = true (leaving it unchanged otherwise), on a
success outcome heals the record (is_healthy true, last_error cleared);
for an unknown id it mutates nothing. -/
theorem release_outcome_accounting :
    ∀ (credential_id : String) (result : Json) (store : Store),
      (release_credential credential_id result store).1 = .ok ()
      ∧ (store.lookup credential_id = none →
          (release_credential credential_id result store).2 = store)
      ∧ (∀ rec, store.lookup credential_id = some rec →
          ∃ rec',
            ((release_credential credential_id result store).2).lookup credential_id
              = some rec'
            ∧ rec'.usage_count = rec.usage_count + 1
            ∧ (∀ err, result.get "error" = some err →
                rec'.error_count = rec.error_count + 1
                ∧ rec'.last_error = (err.get "message").bind Json.as_str
                ∧ (markUnhealthyFlag err = true → rec'.is_healthy = false)
                ∧ (markUnhealthyFlag err = false → rec'.is_healthy = rec.is_healthy))
            ∧ (result.get "error" = none →
                rec'.is_healthy = true ∧ rec'.last_error = none)) := by
  intro credential_id result store
  refine ⟨rfl, ?_, ?_⟩
  · intro h
    exact updateFirst_of_lookup_none store credential_id _ h
  · intro rec h
    refine ⟨applyRelease rec result,
      lookup_updateFirst_self store credential_id _ rec h, ?_, ?_, ?_⟩
    · unfold applyRelease
      cases he : result.get "error" with
      | none => rfl
      | some err =>
        by_cases hm : markUnhealthyFlag err
        · simp [hm]
        · simp [hm]
    · intro err he
      unfold applyRelease
      rw [he]
      by_cases hm : markUnhealthyFlag err
      · simp [hm]
      · simp [hm]
    · intro he
      unfold applyRelease
      rw [he]
      exact ⟨rfl, rfl⟩

/-- Witness for C4: the healing case on a concrete unhealthy record. -/
theorem release_outcome_accounting_witness :
    ∃ rec',
      ((release_credential "A" (Json.obj [])
        [("A", { DroidCredentials.default with
                  is_healthy := false, last_error := some "boom" })]).2).lookup "A"
        = some rec'
      ∧ rec'.usage_count = 1 ∧ rec'.is_healthy = true ∧ rec'.last_error = none := by
  obtain ⟨rec', h1, h2, _, h4⟩ :=
    (release_outcome_accounting "A" (Json.obj [])
      [("A", { DroidCredentials.default with
                is_healthy := false, last_error := some "boom" })]).2.2
      { DroidCredentials.default with
         is_healthy := false, last_error := some "boom" } (by decide)
  exact ⟨rec', h1, h2, (h4 rfl).1, (h4 rfl).2⟩

/-- The head of a filtered list is what find? returns. -/
theorem find?_of_filter_cons {α : Type} (p : α → Bool) :
    ∀ (l : List α) (x : α) (rest : List α),
      l.filter p = x :: rest → l.find? p = some x := by
  intro l
  induction l with
  | nil => intro x rest h; simp at h
  | cons a tl ih =>
    intro x rest h
    by_cases ha : p a
    · rw [List.filter_cons_of_pos ha] at h
      cases h
      simp [List.find?_cons_of_pos, ha]
    · rw [List.filter_cons_of_neg (by simpa using ha)] at h
      rw [List.find?_cons_of_neg _ ha]
      exact ih x rest h

/-- When find? hits, the filtered list starts with the found element. -/
theorem filter_cons_of_find? {α : Type} (p : α → Bool) :
    ∀ (l : List α) (x : α), l.find? p = some x →
      ∃ rest, l.filter p = x :: rest := by
  intro l
  induction l with
  | nil => intro x h; simp at h
  | cons a tl ih =>
    intro x h
    by_cases ha : p a
    · rw [List.find?_cons_of_pos _ ha] at h
      cases h
      exact ⟨tl.filter p, List.filter_cons_of_pos ha⟩
    · rw [List.find?_cons_of_neg _ ha] at h
      obtain ⟨rest, hrest⟩ := ih x h
      exact ⟨rest, by rw [List.filter_cons_of_neg (by simpa using ha)]; exact hrest⟩

/-- When find? misses, the filtered list is empty. -/
theorem filter_nil_of_find?_none {α : Type} (p : α → Bool) :
    ∀ (l : List α), l.find? p = none → l.filter p = [] := by
  intro l h
  rw [List.filter_eq_nil_iff]
  intro a ha
  exact List.find?_eq_none.mp h a ha

/-- C3: acquisition for a supported model only ever returns the first
healthy record of the store iteration order (so the same store state
always yields the same record selection, independent of the random key
draw), fails with the no-healthy-credential error when no healthy record
exists, and fails for a first-healthy OAuth record without an access
token. -/
theorem acquire_first_healthy_selection :
    ∀ (model : String) (store : Store) (rand : Nat) (key : List Nat),
      supports_model model = true →
      ((∀ ac st', acquire_credential model store rand key = (.ok ac, st') →
          ∃ rec, firstHealthy store = some (ac.id, rec)
            ∧ rec.is_healthy = true ∧ (ac.id, rec) ∈ store)
       ∧ (firstHealthy store = none →
          acquire_credential model store rand key
            = (.error .noHealthyCredential, store))
       ∧ (∀ i r, firstHealthy store = some (i, r) → r.auth_type = .OAuth →
          r.access_token = none →
          acquire_credential model store rand key
            = (.error .noAccessToken, store))) := by
  intro model store rand key hsup
  have hcond : ¬¬ supports_model model = true := by simp [hsup]
  refine ⟨?_, ?_, ?_⟩
  · intro ac st' h
    unfold acquire_credential at h
    rw [if_neg hcond] at h
    rcases hf : store.filter (fun p => p.2.is_healthy) with _ | ⟨⟨i, r⟩, rest⟩
    · rw [hf] at h
      exact absurd h (by simp)
    · rw [hf] at h
      have hfind : firstHealthy store = some (i, r) :=
        find?_of_filter_cons _ store (i, r) rest hf
      have hmem : (i, r) ∈ store := List.mem_of_find?_eq_some hfind
      have hhealthy : r.is_healthy = true := by
        have := List.find?_some hfind
        simpa using this
      have hid : ac.id = i := by
        dsimp only at h
        rcases har : r.auth_type with _ | _
        · rw [har] at h
          rcases hat : r.access_token with _ | tok
          · rw [hat] at h; exact absurd h (by simp)
          · rw [hat] at h
            cases h
            rfl
        · rw [har] at h
          rcases hak : r.api_keys.filter (fun k => k.status = "active") with _ | ⟨k0, ks⟩
          · rw [hak] at h; exact absurd h (by simp)
          · rw [hak] at h
            dsimp only at h
            rcases hdec : decrypt_sensitive_data
                ((k0 :: ks).getD (rand % (k0 :: ks).length) k0).encrypted_key.data key
              with e | kb
            · rw [hdec] at h; exact absurd h (by simp)
            · rw [hdec] at h
              cases h
              rfl
      exact ⟨r, by rw [hid]; exact hfind, hhealthy, by rw [hid]; exact hmem⟩
  · intro hnone
    unfold acquire_credential
    rw [if_neg hcond, filter_nil_of_find?_none _ store hnone]
  · intro i r hfirst hOAuth hNoTok
    obtain ⟨rest, hrest⟩ := filter_cons_of_find? _ store (i, r) hfirst
    unfold acquire_credential
    rw [if_neg hcond, hrest]
    dsimp only
    rw [hOAuth, hNoTok]

/-- Witness for C3: a store whose single healthy record is an OAuth record
without an access token; the unhealthy record is never selected. -/
theorem acquire_first_healthy_selection_witness :
    acquire_credential "claude-3" [("B", { DroidCredentials.default with is_healthy := false }),
      ("A", DroidCredentials.default)] 0 []
      = (.error .noAccessToken,
         [("B", { DroidCredentials.default with is_healthy := false }),
          ("A", DroidCredentials.default)]) :=
  (acquire_first_healthy_selection "claude-3"
    [("B", { DroidCredentials.default with is_healthy := false }),
     ("A", DroidCredentials.default)] 0 [] (by decide)).2.2
    "A" DroidCredentials.default (by decide) rfl rfl

/-- The conditional identity-field overwrites at the end of the refresh
application never touch the expiry field. -/
theorem apply_refresh_result_expires_at (credential : DroidCredentials)
    (result : WorkosRefreshResult) (now : Int) :
    (apply_refresh_result credential result now).expires_at
      = result.expires_at.map to_rfc3339 := by
  obtain ⟨a, rt, ea, oi, ui, oe⟩ := result
  cases rt <;> cases oi <;> cases ui <;> cases oe <;> rfl

/-- C8 (refutation): a successful token exchange whose response carries an
unparseable `expires_at` together with `expires_in = 3600` leaves the
record with no expiry at all - the code keeps the failed parse (`.ok()`
gives `None`) instead of falling back to `now + expires_in`, contradicting
the claimed precedence and the claim that every successful refresh leaves
a known expiry. -/
theorem refresh_expiry_unparseable_absent :
    (refresh_oauth_token_success DroidCredentials.default
      { access_token := "new-token", refresh_token := none
        expires_at := some "not-a-date", expires_in := some 3600
        token_type := none, organization_id := none, user := none
        authentication_method := none } 0).expires_at = none := by
  rfl

/-- C8 (amended): the expiry a successful refresh applies to the record is
the parse of the response `expires_at` field whenever that field is
present - `None` when it does not parse, even if `expires_in` is present;
only when the field is absent does the code fall back to `now +
expires_in` if present and to `now` plus 8 hours otherwise. -/
theorem refresh_expiry_precedence_amended :
    ∀ (credential : DroidCredentials) (resp : WorkOSTokenResponse) (now : Int),
      (∀ s t, resp.expires_at = some s → parse_rfc3339 s = some t →
        (refresh_oauth_token_success credential resp now).expires_at
          = some (to_rfc3339 t))
      ∧ (∀ s, resp.expires_at = some s → parse_rfc3339 s = none →
        (refresh_oauth_token_success credential resp now).expires_at = none)
      ∧ (∀ n, resp.expires_at = none → resp.expires_in = some n →
        (refresh_oauth_token_success credential resp now).expires_at
          = some (to_rfc3339 (now + n)))
      ∧ (resp.expires_at = none → resp.expires_in = none →
        (refresh_oauth_token_success credential resp now).expires_at
          = some (to_rfc3339 (now + 8 * 3600))) := by
  intro credential resp now
  have hbase :
      (refresh_oauth_token_success credential resp now).expires_at
        = (computeExpiresAt resp now).map to_rfc3339 := by
    unfold refresh_oauth_token_success
    rw [apply_refresh_result_expires_at]
    rfl
  refine ⟨?_, ?_, ?_, ?_⟩
  · intro s t hs ht
    rw [hbase]
    simp [computeExpiresAt, hs, ht]
  · intro s hs ht
    rw [hbase]
    simp [computeExpiresAt, hs, ht]
  · intro n hs hn
    rw [hbase]
    simp [computeExpiresAt, hs, hn]
  · intro hs hn
    rw [hbase]
    simp [computeExpiresAt, hs, hn]

/-- Witness for the amended C8 at a concrete response without an absolute
expiry. -/
theorem refresh_expiry_precedence_amended_witness :
    (refresh_oauth_token_success DroidCredentials.default
      { access_token := "t", refresh_token := none, expires_at := none
        expires_in := some 3600, token_type := none, organization_id := none
        user := none, authentication_method := none } 1000000).expires_at
      = some (to_rfc3339 (1000000 + 3600)) :=
  (refresh_expiry_precedence_amended DroidCredentials.default
    { access_token := "t", refresh_token := none, expires_at := none
      expires_in := some 3600, token_type := none, organization_id := none
      user := none, authentication_method := none } 1000000).2.2.1 3600 rfl rfl

/-- The digest model always yields 32 bytes. -/
theorem length_sha256Model (input : List Nat) : (sha256Model input).length = 32 := by
  simp [sha256Model]

/-- The digest model yields byte-ranged values. -/
theorem sha256Model_lt (input : List Nat) : ∀ x ∈ sha256Model input, x < 256 := by
  intro x hx
  simp only [sha256Model, List.mem_map, List.mem_range] at hx
  obtain ⟨i, _, rfl⟩ := hx
  exact Nat.mod_lt _ (by norm_num)

/-- The block-cipher mask is 16 bytes long. -/
theorem cbMask_length (key : List Nat) : (cbMask key).length = 16 := by
  simp [cbMask, List.length_take, length_sha256Model]

/-- The block-cipher mask is byte-ranged. -/
theorem cbMask_lt (key : List Nat) : ∀ x ∈ cbMask key, x < 256 :=
  fun x hx => sha256Model_lt key x (List.mem_of_mem_take hx)

/-- XOR-ing the same list twice is the identity on equal lengths. -/
theorem zipWith_xor_cancel :
    ∀ (a m : List Nat), a.length = m.length →
      List.zipWith Nat.xor (List.zipWith Nat.xor a m) m = a := by
  intro a
  induction a with
  | nil => intro m _; simp
  | cons x xs ih =>
    intro m h
    cases m with
    | nil => simp at h
    | cons y ys =>
      simp only [List.zipWith_cons_cons, List.cons.injEq]
      exact ⟨Nat.xor_cancel_right y x, ih ys (by simpa using h)⟩

/-- XOR of byte-ranged lists is byte-ranged. -/
theorem zipWith_xor_lt :
    ∀ (a b : List Nat), (∀ x ∈ a, x < 256) → (∀ x ∈ b, x < 256) →
      ∀ x ∈ List.zipWith Nat.xor a b, x < 256 := by
  intro a
  induction a with
  | nil => intro b _ _ x hx; simp at hx
  | cons u us ih =>
    intro b ha hb x hx
    cases b with
    | nil => simp at hx
    | cons v vs =>
      simp only [List.zipWith_cons_cons, List.mem_cons] at hx
      rcases hx with rfl | hx
      · have hu : u < 256 := ha u (by simp)
        have hv : v < 256 := hb v (by simp)
        have e : (2 : Nat) ^ 8 = 256 := by norm_num
        exact e ▸ Nat.xor_lt_two_pow (e.symm ▸ hu) (e.symm ▸ hv)
      · exact ih vs (fun y hy => ha y (by simp [hy])) (fun y hy => hb y (by simp [hy])) x hx

/-- CBC encryption outputs 16-byte blocks on 16-byte inputs. -/
theorem cbcEncBlocks_block_length (key : List Nat) :
    ∀ (bs : List (List Nat)) (prev : List Nat), prev.length = 16 →
      (∀ b ∈ bs, b.length = 16) →
      ∀ c ∈ cbcEncBlocks key prev bs, c.length = 16 := by
  intro bs
  induction bs with
  | nil => intro prev _ _ c hc; simp [cbcEncBlocks] at hc
  | cons b rest ih =>
    intro prev hprev hbs c hc
    have hb : b.length = 16 := hbs b (by simp)
    have hc16 : (aesBlockEnc key (List.zipWith Nat.xor b prev)).length = 16 := by
      simp [aesBlockEnc, List.length_zipWith, hb, hprev, cbMask_length]
    simp only [cbcEncBlocks, List.mem_cons] at hc
    rcases hc with rfl | hc
    · exact hc16
    · exact ih _ hc16 (fun x hx => hbs x (by simp [hx])) c hc

/-- CBC encryption outputs byte-ranged blocks on byte-ranged inputs. -/
theorem cbcEncBlocks_bytes (key : List Nat) :
    ∀ (bs : List (List Nat)) (prev : List Nat),
      (∀ b ∈ bs, ∀ x ∈ b, x < 256) → (∀ x ∈ prev, x < 256) →
      ∀ c ∈ cbcEncBlocks key prev bs, ∀ x ∈ c, x < 256 := by
  intro bs
  induction bs with
  | nil => intro prev _ _ c hc; simp [cbcEncBlocks] at hc
  | cons b rest ih =>
    intro prev hbs hprev c hc
    have hcb : ∀ x ∈ aesBlockEnc key (List.zipWith Nat.xor b prev), x < 256 := by
      unfold aesBlockEnc
      exact zipWith_xor_lt _ _
        (zipWith_xor_lt b prev (hbs b (by simp)) hprev) (cbMask_lt key)
    simp only [cbcEncBlocks, List.mem_cons] at hc
    rcases hc with rfl | hc
    · exact hcb
    · exact ih _ (fun y hy => hbs y (by simp [hy])) hcb c hc

/-- CBC decryption inverts CBC encryption blockwise. -/
theorem cbcDecBlocks_cbcEncBlocks (key : List Nat) :
    ∀ (bs : List (List Nat)) (prev : List Nat), prev.length = 16 →
      (∀ b ∈ bs, b.length = 16) →
      cbcDecBlocks key prev (cbcEncBlocks key prev bs) = bs := by
  intro bs
  induction bs with
  | nil => intro prev _ _; rfl
  | cons b rest ih =>
    intro prev hprev hbs
    have hb : b.length = 16 := hbs b (by simp)
    have hlen1 : (List.zipWith Nat.xor b prev).length = 16 := by
      simp [List.length_zipWith, hb, hprev]
    have hclen : (aesBlockEnc key (List.zipWith Nat.xor b prev)).length = 16 := by
      simp [aesBlockEnc, List.length_zipWith, hlen1, cbMask_length]
    have hhead :
        List.zipWith Nat.xor
          (aesBlockDec key (aesBlockEnc key (List.zipWith Nat.xor b prev))) prev = b := by
      unfold aesBlockDec aesBlockEnc
      rw [zipWith_xor_cancel _ _ (by rw [hlen1, cbMask_length])]
      exact zipWith_xor_cancel b prev (by rw [hb, hprev])
    simp only [cbcEncBlocks, cbcDecBlocks, List.cons.injEq]
    exact ⟨hhead, ih _ hclen (fun x hx => hbs x (by simp [hx]))⟩

/-- Flattening the block view recovers the byte list. -/
theorem flatten_toBlocks : ∀ (l : List Nat), (toBlocks l).flatten = l := by
  intro l
  induction l using toBlocks.induct with
  | case1 => simp [toBlocks]
  | case2 b rest ih =>
    simp only [toBlocks, List.flatten_cons, ih, List.cons_append]
    rw [List.take_append_drop]

/-- On 16-divisible lengths every block of the block view has 16 bytes. -/
theorem toBlocks_length_16 : ∀ (l : List Nat), l.length % 16 = 0 →
    ∀ b ∈ toBlocks l, b.length = 16 := by
  intro l
  induction l using toBlocks.induct with
  | case1 => intro _ b hb; simp [toBlocks] at hb
  | case2 hd rest ih =>
    intro hmod b hb
    have hlen : rest.length + 1 ≥ 16 := by
      simp only [List.length_cons] at hmod
      omega
    simp only [toBlocks, List.mem_cons] at hb
    rcases hb with rfl | hb
    · simp only [List.length_cons, List.length_take]
      omega
    · refine ih ?_ b hb
      simp only [List.length_cons] at hmod
      simp only [List.length_drop]
      omega

/-- Every byte of a block of the block view is a byte of the list. -/
theorem toBlocks_mem_subset : ∀ (l : List Nat) (b : List Nat),
    b ∈ toBlocks l → ∀ x ∈ b, x ∈ l := by
  intro l
  induction l using toBlocks.induct with
  | case1 => intro b hb; simp [toBlocks] at hb
  | case2 hd rest ih =>
    intro b hb x hx
    simp only [toBlocks, List.mem_cons] at hb
    rcases hb with rfl | hb
    · rcases List.mem_cons.mp hx with rfl | hx
      · exact List.mem_cons_self _ _
      · exact List.mem_cons_of_mem _ (List.mem_of_mem_take hx)
    · exact List.mem_cons_of_mem _ (List.drop_subset _ _ (ih b hb x hx))

/-- The block view of a flattened list of 16-byte blocks is that list. -/
theorem toBlocks_flatten_inv : ∀ (bs : List (List Nat)),
    (∀ b ∈ bs, b.length = 16) → toBlocks bs.flatten = bs := by
  intro bs
  induction bs with
  | nil => intro _; simp [toBlocks]
  | cons b rest ih =>
    intro h
    have hb : b.length = 16 := h b (by simp)
    cases b with
    | nil => simp at hb
    | cons x xs =>
      have hxs : xs.length = 15 := by simpa using hb
      show toBlocks ((x :: xs) ++ rest.flatten) = (x :: xs) :: rest
      rw [List.cons_append, toBlocks, List.take_left' hxs, List.drop_left' hxs,
        ih (fun y hy => h y (by simp [hy]))]

/-- A flattened list of 16-byte blocks has 16-divisible length. -/
theorem flatten_blocks_length_mod16 : ∀ (bs : List (List Nat)),
    (∀ b ∈ bs, b.length = 16) → bs.flatten.length % 16 = 0 := by
  intro bs
  induction bs with
  | nil => intro _; rfl
  | cons b rest ih =>
    intro h
    have hb : b.length = 16 := h b (by simp)
    have := ih (fun y hy => h y (by simp [hy]))
    simp only [List.flatten_cons, List.length_append, hb]
    omega

/-- Padding yields a 16-divisible length. -/
theorem pkcs7Pad_length_mod (l : List Nat) : (pkcs7Pad l).length % 16 = 0 := by
  unfold pkcs7Pad
  rw [List.length_append, List.length_replicate]
  omega

/-- Padding preserves byte-rangedness. -/
theorem pkcs7Pad_bytes (l : List Nat) (h : ∀ x ∈ l, x < 256) :
    ∀ x ∈ pkcs7Pad l, x < 256 := by
  intro x hx
  unfold pkcs7Pad at hx
  rw [List.mem_append] at hx
  rcases hx with hx | hx
  · exact h x hx
  · rw [List.eq_of_mem_replicate hx]
    omega

/-- Unpadding inverts padding. -/
theorem pkcs7Unpad_pkcs7Pad (l : List Nat) : pkcs7Unpad (pkcs7Pad l) = some l := by
  have hple : l.length % 16 < 16 := Nat.mod_lt _ (by norm_num)
  have hp1 : 1 ≤ 16 - l.length % 16 := by omega
  obtain ⟨k, hk⟩ : ∃ k, 16 - l.length % 16 = k + 1 := ⟨16 - l.length % 16 - 1, by omega⟩
  have hlast : (pkcs7Pad l).getLast? = some (16 - l.length % 16) := by
    simp only [pkcs7Pad]
    rw [hk, List.replicate_succ', ← List.append_assoc, List.getLast?_concat]
  have hlen : (pkcs7Pad l).length = l.length + (16 - l.length % 16) := by
    simp only [pkcs7Pad]
    rw [List.length_append, List.length_replicate]
  have hdrop : (pkcs7Pad l).drop ((pkcs7Pad l).length - (16 - l.length % 16))
      = List.replicate (16 - l.length % 16) (16 - l.length % 16) := by
    rw [hlen]
    have h2 : l.length + (16 - l.length % 16) - (16 - l.length % 16) = l.length := by
      omega
    rw [h2]
    simp only [pkcs7Pad]
    exact List.drop_left' rfl
  have htake : (pkcs7Pad l).take ((pkcs7Pad l).length - (16 - l.length % 16)) = l := by
    rw [hlen]
    have h2 : l.length + (16 - l.length % 16) - (16 - l.length % 16) = l.length := by
      omega
    rw [h2]
    simp only [pkcs7Pad]
    exact List.take_left' rfl
  simp only [pkcs7Unpad, hlast]
  have hc : ¬ ((decide (16 - l.length % 16 = 0) || decide (16 < 16 - l.length % 16)
      || decide ((pkcs7Pad l).length < 16 - l.length % 16)) = true) := by
    simp only [Bool.or_eq_true, decide_eq_true_eq, not_or]
    exact ⟨⟨by omega, by omega⟩, by rw [hlen]; omega⟩
  rw [if_neg hc, hdrop]
  have hall : (List.replicate (16 - l.length % 16) (16 - l.length % 16)).all
      (fun x => decide (x = 16 - l.length % 16)) = true := by
    rw [List.all_eq_true]
    intro x hx
    simp [List.eq_of_mem_replicate hx]
  rw [if_pos hall, htake]

/-- Hex decode of a hex digit recovers the value. -/
theorem hexDigitVal_hexDigitChar : ∀ n < 16, hexDigitVal (hexDigitChar n) = some n := by
  decide

/-- A hex digit is never the colon separator. -/
theorem hexDigitChar_ne_colon : ∀ n, hexDigitChar n ≠ ':' := by
  intro n
  by_cases h : n < 16
  · have hall : ∀ m < 16, hexDigitChar m ≠ ':' := by decide
    exact hall n h
  · unfold hexDigitChar
    rw [List.getD_eq_default]
    · decide
    · have hlen : ("0123456789abcdef".data).length = 16 := by decide
      omega

/-- Hex decoding inverts hex encoding on byte lists. -/
theorem hexDecodeChars_hexEncodeBytes : ∀ (bs : List Nat), (∀ b ∈ bs, b < 256) →
    hexDecodeChars (hexEncodeBytes bs) = some bs := by
  intro bs
  induction bs with
  | nil => intro _; rfl
  | cons b rest ih =>
    intro h
    have hb : b < 256 := h b (by simp)
    have hdiv : b / 16 < 16 :=
      (Nat.div_lt_iff_lt_mul (by norm_num)).mpr (by omega)
    have hmod : b % 16 < 16 := Nat.mod_lt _ (by norm_num)
    show hexDecodeChars
        (hexDigitChar (b / 16) :: hexDigitChar (b % 16) :: hexEncodeBytes rest)
      = some (b :: rest)
    simp only [hexDecodeChars, hexDigitVal_hexDigitChar _ hdiv,
      hexDigitVal_hexDigitChar _ hmod, ih (fun x hx => h x (by simp [hx])),
      Option.some.injEq, List.cons.injEq]
    exact ⟨by rw [Nat.mul_comm]; exact Nat.div_add_mod b 16, trivial⟩

/-- Hex encodings never contain a colon. -/
theorem colon_not_mem_hexEncodeBytes : ∀ (bs : List Nat), ':' ∉ hexEncodeBytes bs := by
  intro bs
  induction bs with
  | nil => simp [hexEncodeBytes]
  | cons b rest ih =>
    simp only [hexEncodeBytes, List.mem_cons, not_or]
    exact ⟨Ne.symm (hexDigitChar_ne_colon _), Ne.symm (hexDigitChar_ne_colon _), ih⟩

/-- Splitting a colon-free list yields that single part. -/
theorem splitOnColon_no_colon : ∀ (l : List Char), ':' ∉ l → splitOnColon l = [l] := by
  intro l
  induction l with
  | nil => intro _; rfl
  | cons c rest ih =>
    intro h
    have hc : ¬ c = ':' := fun hc => h (by simp [hc])
    simp only [splitOnColon, if_neg hc, ih (fun hm => h (by simp [hm]))]

/-- Splitting around a single colon yields exactly the two parts. -/
theorem splitOnColon_append : ∀ (a b : List Char), ':' ∉ a → ':' ∉ b →
    splitOnColon (a ++ ':' :: b) = [a, b] := by
  intro a
  induction a with
  | nil =>
    intro b _ hb
    simp only [List.nil_append, splitOnColon, if_pos rfl, if_true,
      splitOnColon_no_colon b hb]
  | cons c a ih =>
    intro b ha hb
    have hc : ¬ c = ':' := fun h => ha (by simp [h])
    simp only [List.cons_append, splitOnColon, if_neg hc, List.append_eq,
      ih b (fun h => ha (by simp [h])) hb]

/-- C5: decrypting the token produced by encrypting any non-empty plaintext
under a secret, with the same secret, yields exactly the plaintext, for
every 16-byte IV draw; and encrypting or decrypting the empty string under
any secret yields the empty string. -/
theorem encrypt_decrypt_roundtrip :
    (∀ (P iv K : List Nat), P ≠ [] → (∀ b ∈ P, b < 256) → validUtf8 P = true →
        iv.length = 16 → (∀ b ∈ iv, b < 256) →
        decrypt_sensitive_data (encrypt_sensitive_data P iv K) K = .ok P)
    ∧ (∀ (iv K : List Nat), encrypt_sensitive_data [] iv K = [])
    ∧ (∀ (K : List Nat), decrypt_sensitive_data [] K = .ok []) := by
  refine ⟨?_, fun iv K => by simp [encrypt_sensitive_data],
    fun K => by simp [decrypt_sensitive_data]⟩
  intro P iv K hP hPb hutf hivlen hivb
  have hencrypt : encrypt_sensitive_data P iv K
      = hexEncodeBytes iv ++ ':' :: hexEncodeBytes
          ((cbcEncBlocks (derive_key K) iv (toBlocks (pkcs7Pad P))).flatten) := by
    simp only [encrypt_sensitive_data, if_neg hP]
  have hpadb := pkcs7Pad_bytes P hPb
  have hpadmod := pkcs7Pad_length_mod P
  have hblocks16 := toBlocks_length_16 (pkcs7Pad P) hpadmod
  have hblocksb : ∀ b ∈ toBlocks (pkcs7Pad P), ∀ x ∈ b, x < 256 :=
    fun b hb x hx => hpadb x (toBlocks_mem_subset _ b hb x hx)
  have hctblocks16 := cbcEncBlocks_block_length (derive_key K)
    (toBlocks (pkcs7Pad P)) iv hivlen hblocks16
  have hctblocksb := cbcEncBlocks_bytes (derive_key K)
    (toBlocks (pkcs7Pad P)) iv hblocksb hivb
  have hctb : ∀ x ∈ (cbcEncBlocks (derive_key K) iv (toBlocks (pkcs7Pad P))).flatten,
      x < 256 := by
    intro x hx
    rw [List.mem_flatten] at hx
    obtain ⟨c, hc, hxc⟩ := hx
    exact hctblocksb c hc x hxc
  have hctmod := flatten_blocks_length_mod16 _ hctblocks16
  have hct2blocks := toBlocks_flatten_inv _ hctblocks16
  have hcbc := cbcDecBlocks_cbcEncBlocks (derive_key K)
    (toBlocks (pkcs7Pad P)) iv hivlen hblocks16
  have hflat := flatten_toBlocks (pkcs7Pad P)
  have hunpad := pkcs7Unpad_pkcs7Pad P
  have htokne : hexEncodeBytes iv ++ ':' :: hexEncodeBytes
      ((cbcEncBlocks (derive_key K) iv (toBlocks (pkcs7Pad P))).flatten) ≠ [] := by
    simp
  rw [hencrypt]
  simp only [decrypt_sensitive_data, if_neg htokne,
    splitOnColon_append _ _ (colon_not_mem_hexEncodeBytes iv)
      (colon_not_mem_hexEncodeBytes _),
    hexDecodeChars_hexEncodeBytes iv hivb,
    hexDecodeChars_hexEncodeBytes _ hctb,
    hivlen, hctmod, hct2blocks, hcbc, hflat, hunpad, hutf]
  simp

/-- Witness for C5: a concrete two-byte plaintext round trip plus the empty
identities. -/
theorem encrypt_decrypt_roundtrip_witness :
    decrypt_sensitive_data
        (encrypt_sensitive_data [104, 105] (List.replicate 16 7) [1, 2, 3]) [1, 2, 3]
      = .ok [104, 105]
    ∧ encrypt_sensitive_data [] (List.replicate 16 7) [1, 2, 3] = []
    ∧ decrypt_sensitive_data [] [1, 2, 3] = .ok [] :=
  ⟨encrypt_decrypt_roundtrip.1 [104, 105] (List.replicate 16 7) [1, 2, 3]
      (by simp) (by decide) (by decide) (by simp) (by decide),
   encrypt_decrypt_roundtrip.2.1 (List.replicate 16 7) [1, 2, 3],
   encrypt_decrypt_roundtrip.2.2 [1, 2, 3]⟩

/-- C9: on every non-empty token whose colon split is not exactly two
parts, whose parts are not both valid hex, or whose decoded IV is not 16
bytes, decryption fails with a malformed-token error kind, distinct from
the decryption-failure kinds and never a success. -/
theorem decrypt_malformed_token_rejected :
    ∀ (token : List Char) (K : List Nat), token ≠ [] →
      malformedToken token = true →
      ∃ e, decrypt_sensitive_data token K = .error e ∧ e.isMalformed = true := by
  intro token K hne hmal
  rcases hs : splitOnColon token with _ | ⟨p1, tail1⟩
  · refine ⟨.invalidFormat, ?_, rfl⟩
    simp only [decrypt_sensitive_data, if_neg hne, hs]
  · rcases tail1 with _ | ⟨p2, tail2⟩
    · refine ⟨.invalidFormat, ?_, rfl⟩
      simp only [decrypt_sensitive_data, if_neg hne, hs]
    · rcases tail2 with _ | ⟨p3, rest⟩
      · rcases h1 : hexDecodeChars p1 with _ | iv
        · refine ⟨.ivDecodeFailed, ?_, rfl⟩
          simp only [decrypt_sensitive_data, if_neg hne, hs, h1]
        · rcases h2 : hexDecodeChars p2 with _ | ct
          · refine ⟨.ciphertextDecodeFailed, ?_, rfl⟩
            simp only [decrypt_sensitive_data, if_neg hne, hs, h1, h2]
          · have hiv : iv.length ≠ 16 := by
              simp only [malformedToken, hs, h1, h2, decide_eq_true_eq] at hmal
              exact hmal
            refine ⟨.invalidIvLength, ?_, rfl⟩
            simp only [decrypt_sensitive_data, if_neg hne, hs, h1, h2]
            rw [if_pos hiv]
      · refine ⟨.invalidFormat, ?_, rfl⟩
        simp only [decrypt_sensitive_data, if_neg hne, hs]

/-- Witness for C9 at the bad-hex token of the spec test list. -/
theorem decrypt_malformed_token_rejected_witness :
    ∃ e, decrypt_sensitive_data "zz:zz".data [1, 2, 3] = .error e
      ∧ e.isMalformed = true :=
  decrypt_malformed_token_rejected "zz:zz".data [1, 2, 3] (by decide) (by decide)

end DroidProvider
